import Mathlib

/-!
Shallow embedding of the consensus engine (package consensus, file
consensus/engine.go of the repository) and verification of the spec
claims about it.

The engine code under verification is translated directly from the Go
source. External collaborators that are not part of the provided source
(validator manager, chain store primitives, core-type methods such as
HCC.IsValid, Block.Validate, the ledger, cryptographic signing) are
modelled from the spec as parameters of an environment structure `Env`,
and their observable effects are recorded as explicit traces in the
engine state. Machine integers (uint64 epochs and heights) are modelled
as Nat; the one place where uint64 wraparound is observable
(GetEpoch()-1 in handleBlock) is modelled explicitly by `u64pred`.
-/

namespace Consensus

/-- Hashes are modelled as natural numbers; 0 plays the role of the empty hash. -/
abbrev Hash : Type := Nat

/-- The empty hash (common.Hash zero value, hash.IsEmpty()). -/
def emptyHash : Hash := 0

/-- Validator addresses modelled as natural numbers. -/
abbrev Address : Type := Nat

/-- A consensus vote: (block hash, height, voter id, epoch, signature).
Mirrors core.Vote. -/
structure VoteT where
  block : Hash
  height : Nat
  id : Address
  epoch : Nat
  sig : Nat
deriving DecidableEq

/-- The highest-committed-certificate carried by a block: a block hash and
a supporting vote set. Mirrors core.CommitCertificate (block.HCC). -/
structure HCCT where
  blockHash : Hash
  votes : List VoteT
deriving DecidableEq

/-- A block, mirroring core.Block: parent hash, height, epoch, proposer,
timestamp, transactions, post-state root, HCC, signature. The hash of the
block is carried as a field since hashing is an external crypto primitive. -/
structure Block where
  chainID : Nat
  parent : Hash
  height : Nat
  epoch : Nat
  proposer : Address
  timestamp : Nat
  hcc : HCCT
  txs : List Nat
  stateHash : Hash
  sig : Nat
  hash : Hash
deriving DecidableEq

/-- Block status in the chain store, mirroring core.BlockStatus. -/
inductive Status where
  | pending
  | valid
  | invalid
  | committed
  | finalized
deriving DecidableEq

/-- Modelled from the spec: the status predicate used for a valid parent,
"parent.status is Valid (or Committed/Finalized)" (core.BlockStatus.IsValid
is not part of the provided source). -/
def Status.isValid : Status → Bool
  | Status.valid => true
  | Status.committed => true
  | Status.finalized => true
  | _ => false

/-- Modelled from the spec: the committed-status predicate used by the
two-chain finalization rule (core.BlockStatus.IsCommitted is not part of
the provided source). -/
def Status.isCommitted : Status → Bool
  | Status.committed => true
  | Status.finalized => true
  | _ => false

/-- The in-store view of a block, mirroring core.ExtendedBlock: the block
plus children hashes, status and the HasValidatorUpdate flag. -/
structure ExtendedBlock where
  block : Block
  children : List Hash
  status : Status
  hasValidatorUpdate : Bool
deriving DecidableEq

/-- A proposal, mirroring core.Proposal: a block, the proposer id and
supporting votes. -/
structure Proposal where
  block : Block
  proposerID : Address
  votes : List VoteT
deriving DecidableEq

/-- The external collaborators of the engine, modelled from the spec
(section 6, External Interfaces): the validator manager, the chain-store
queries whose implementations are outside the provided source, the core
structural validators, the ledger results, and cryptographic primitives.
Validator sets are identified by natural numbers. -/
structure Env where
  selfAddr : Address
  chainID : Nat
  now : Nat
  queueCap : Nat
  getValidatorSet : Hash → Nat
  getNextValidatorSet : Hash → Nat
  getNextProposer : Hash → Nat → Address
  inValidatorSet : Nat → Address → Bool
  hasMajority : Nat → List VoteT → Bool
  hccIsValid : HCCT → Nat → Bool
  hccIsProven : HCCT → Nat → Bool
  blockValidateOk : Block → Bool
  voteValidateOk : VoteT → Bool
  isDescendant : Hash → Hash → Bool
  resetStateOk : Nat → Hash → Bool
  applyBlockTxs : Block → Option Bool
  proposeBlockTxs : Hash → Option (Hash × List Nat)
  signVote : Hash → Nat → Nat → Nat
  signBlock : Block → Nat
  mkHash : Block → Hash

/-- The full engine state: the persisted consensus state (epoch, last
vote, last proposal, highest CC block, last finalized block, vote
indices), the chain store contents touched by the engine, and explicit
traces of the effects issued to external collaborators (ledger finalize
calls, store commit/finalize markings, tx-index updates, broadcast votes
and proposals, and the finalized-blocks output channel). -/
structure EngineState where
  stopped : Bool
  crashed : Bool
  epoch : Nat
  lastVote : VoteT
  lastProposal : Option Proposal
  highestCC : ExtendedBlock
  lastFinalized : ExtendedBlock
  epochVotes : List VoteT
  chainBlocks : List (Hash × ExtendedBlock)
  chainVotes : List VoteT
  ledgerOps : List (Nat × Hash)
  commitOps : List Hash
  finalizeMarkOps : List Hash
  txIndexOps : List Hash
  broadcasts : List VoteT
  proposalBroadcasts : List Proposal
  finalizedEmitted : List Block
deriving DecidableEq

/-- chain.FindBlock: look a block up in the store by hash. -/
def findBlock (s : EngineState) (h : Hash) : Option ExtendedBlock :=
  (s.chainBlocks.find? (fun p => p.1 == h)).map (fun p => p.2)

/-- Update the stored extended block at a given hash. -/
def updateBlock (l : List (Hash × ExtendedBlock)) (h : Hash)
    (f : ExtendedBlock → ExtendedBlock) : List (Hash × ExtendedBlock) :=
  l.map (fun p => if p.1 == h then (p.1, f p.2) else p)

/-- chain.MarkBlockValid / MarkBlockInvalid and friends: set the status of
the stored block at the given hash. -/
def setStatus (s : EngineState) (h : Hash) (st : Status) : EngineState :=
  { s with chainBlocks := updateBlock s.chainBlocks h (fun b => { b with status := st }) }

/-- chain.MarkBlockHasValidatorUpdate. -/
def markBlockHasValidatorUpdate (s : EngineState) (h : Hash) : EngineState :=
  { s with chainBlocks := updateBlock s.chainBlocks h (fun b => { b with hasValidatorUpdate := true }) }

/-- chain.FindVotesByHash: all indexed votes for a block hash. -/
def findVotesByHash (s : EngineState) (h : Hash) : List VoteT :=
  s.chainVotes.filter (fun v => v.block == h)

/-- Modelled from the spec: state.AddVote persists the vote in the
by-block index and the by-epoch index (consensus/state.go is not part of
the provided source). -/
def addVote (s : EngineState) (v : VoteT) : EngineState :=
  { s with chainVotes := s.chainVotes ++ [v], epochVotes := s.epochVotes ++ [v] }

/-- broadcastVote: encode the vote and send it on the vote channel;
recorded as a broadcast-trace entry. -/
def broadcastVote (s : EngineState) (v : VoteT) : EngineState :=
  { s with broadcasts := s.broadcasts ++ [v] }

/-- createVote: build a vote for the block at the current epoch and sign it. -/
def createVote (env : Env) (s : EngineState) (block : Block) : VoteT :=
  { block := block.hash, height := block.height, id := env.selfAddr,
    epoch := s.epoch, sig := env.signVote block.hash block.height s.epoch }

/-- shouldVoteByID: whether the given id belongs to the validator set at
the given block. -/
def shouldVoteByID (env : Env) (id : Address) (block : Hash) : Bool :=
  env.inValidatorSet (env.getValidatorSet block) id

/-- shouldVote: whether this replica belongs to the validator set at the
given block. -/
def shouldVote (env : Env) (block : Hash) : Bool :=
  shouldVoteByID env env.selfAddr block

/-- shouldProposeByID: whether the given id is the proposer selected by
the validator manager for the epoch, relative to the last finalized block. -/
def shouldProposeByID (env : Env) (s : EngineState) (epoch : Nat) (id : Address) : Bool :=
  env.getNextProposer s.lastFinalized.block.hash epoch == id

/-- The uint64 value of n - 1 for a uint64 value n: subtraction wraps at
zero. Models the expression e.GetEpoch()-1 computed in uint64 in
handleBlock. -/
def u64pred (n : Nat) : Nat :=
  if n = 0 then 2 ^ 64 - 1 else n - 1

/-- validateGrandParent: the grandparent part of the two-direct-confirmations
rule in validateBlock. When the parent of the parent exists and carries a
validator update, the HCC of the block must equal its parent and the HCC
must be proven. A missing grandparent block rejects. -/
def validateGrandParent (env : Env) (s : EngineState) (block : Block)
    (parent : ExtendedBlock) : Bool :=
  if parent.block.parent == emptyHash then true
  else
    match findBlock s parent.block.parent with
    | none => false
    | some grandParent =>
      !grandParent.hasValidatorUpdate ||
        (block.hcc.blockHash == block.parent &&
          env.hccIsProven block.hcc (env.getValidatorSet block.hash))

/-- validateBlock: the block validation pipeline, in source order: height,
epoch, parent status, HCC ancestry, HCC validity (under the validator set
obtained for the hash of the block being validated), the parent
validator-update rule, the grandparent validator-update rule, structural
validation, and proposer check. -/
def validateBlock (env : Env) (s : EngineState) (block : Block)
    (parent : ExtendedBlock) : Bool :=
  (parent.block.height + 1 == block.height) &&
  (decide (parent.block.epoch < block.epoch)) &&
  parent.status.isValid &&
  env.isDescendant block.hcc.blockHash block.hash &&
  env.hccIsValid block.hcc (env.getValidatorSet block.hash) &&
  (!parent.hasValidatorUpdate || block.hcc.blockHash == block.parent) &&
  validateGrandParent env s block parent &&
  env.blockValidateOk block &&
  shouldProposeByID env s block.epoch block.proposer

/-- handleVote: validate the vote, persist it, and run the epoch-advance
check. The check is gated on vote.Epoch being at least the current engine
epoch; it collects the indexed epoch votes whose epoch is at least
vote.Epoch, and on a majority of the next validator set (derived from the
last finalized block) moves to epoch vote.Epoch + 1, rebroadcasting the
collected votes when jumping over more than one epoch. Returns the new
state and the endEpoch signal. -/
def handleVote (env : Env) (s : EngineState) (v : VoteT) : EngineState × Bool :=
  if !env.voteValidateOk v then (s, false)
  else
    let s1 := addVote s v
    if decide (s1.epoch ≤ v.epoch) then
      let currentEpochVotes := s1.epochVotes.filter (fun w => decide (v.epoch ≤ w.epoch))
      if env.hasMajority (env.getNextValidatorSet s1.lastFinalized.block.hash) currentEpochVotes then
        let nextEpoch := v.epoch + 1
        let s2 :=
          if decide (s1.epoch + 1 < nextEpoch) then
            { s1 with broadcasts := s1.broadcasts ++ currentEpochVotes }
          else s1
        ({ s2 with epoch := nextEpoch }, true)
      else (s1, false)
    else (s1, false)

/-- handleVoteInBlock: votes carried in the HCC of a block go through the
same pipeline as standalone votes, minus the CC check. -/
def handleVoteInBlock (env : Env) (s : EngineState) (v : VoteT) : EngineState × Bool :=
  handleVote env s v

/-- Modelled from the spec: chain.CommitBlock marks the block Committed in
the store (blockchain package is not part of the provided source); the
call is also recorded in the commit trace. -/
def commitBlock (s : EngineState) (h : Hash) : EngineState :=
  let s1 := setStatus s h Status.committed
  { s1 with commitOps := s1.commitOps ++ [h] }

/-- Modelled from the spec: chain.FinalizePreviousBlocks marks the block
and its ancestors Finalized (blockchain package is not part of the
provided source); the target block is marked and the call recorded, the
ancestor walk being internal to the store. -/
def finalizePreviousBlocks (s : EngineState) (h : Hash) : EngineState :=
  let s1 := setStatus s h Status.finalized
  { s1 with finalizeMarkOps := s1.finalizeMarkOps ++ [h] }

/-- finalizeBlock: a no-op when the engine is stopped or the block is the
last finalized block; otherwise record the block as last finalized,
finalize the ledger state, mark the chain, force the tx-index update, and
emit on the finalized-blocks channel unless it is full. -/
def finalizeBlock (env : Env) (s : EngineState) (block : ExtendedBlock) : EngineState :=
  if s.stopped then s
  else if block.block.hash == s.lastFinalized.block.hash then s
  else
    let s1 := { s with lastFinalized := block,
                       ledgerOps := s.ledgerOps ++ [(block.block.height, block.block.stateHash)] }
    let s2 := finalizePreviousBlocks s1 block.block.hash
    let s3 := { s2 with txIndexOps := s2.txIndexOps ++ [block.block.hash] }
    if decide (s3.finalizedEmitted.length < env.queueCap) then
      { s3 with finalizedEmitted := s3.finalizedEmitted ++ [block.block] }
    else s3

/-- processCCBlock: ignore CC blocks no higher than the current highest CC
block; otherwise update the highest CC block, commit it in the store, and
finalize its parent when the parent is already committed. -/
def processCCBlock (env : Env) (s : EngineState) (ccBlock : ExtendedBlock) : EngineState :=
  if decide (ccBlock.block.height ≤ s.highestCC.block.height) then s
  else
    let s1 := commitBlock { s with highestCC := ccBlock } ccBlock.block.hash
    match findBlock s1 ccBlock.block.parent with
    | none => s1
    | some parent =>
      if parent.status.isCommitted then finalizeBlock env s1 parent else s1

/-- checkCC: no-op for the empty hash, an unknown block, or a block below
the highest CC block; otherwise process the block as a CC block when the
indexed votes for it reach a majority of its validator set. -/
def checkCC (env : Env) (s : EngineState) (h : Hash) : EngineState :=
  if h == emptyHash then s
  else
    match findBlock s h with
    | none => s
    | some block =>
      if decide (block.block.height < s.highestCC.block.height) then s
      else if env.hasMajority (env.getValidatorSet h) (findVotesByHash s h) then
        processCCBlock env s block
      else s

/-- handleStandaloneVote: the vote pipeline followed by the CC check on
the voted block. -/
def handleStandaloneVote (env : Env) (s : EngineState) (v : VoteT) : EngineState × Bool :=
  let r := handleVote env s v
  (checkCC env r.1 v.block, r.2)

/-- Fuel for the tip-selection DFS; ample for well-formed (tree-shaped)
chain stores, where the number of stack pops is bounded by the store size. -/
def tipFuel (s : EngineState) : Nat :=
  (s.chainBlocks.length + 1) * (s.chainBlocks.length + 1)

/-- The DFS loop of GetTip: pop a block, skip it (with its subtree) when
it is not valid or when pending blocking leaves are excluded and it has a
validator update, otherwise update the candidate when the block is higher
and push its children. A missing child block is fatal, returned as none. -/
def getTipLoop (s : EngineState) (includePendingBlockingLeaf : Bool) :
    Nat → List ExtendedBlock → ExtendedBlock → Option ExtendedBlock
  | 0, _, candidate => some candidate
  | _ + 1, [], candidate => some candidate
  | fuel + 1, curr :: stack, candidate =>
    if !curr.status.isValid then
      getTipLoop s includePendingBlockingLeaf fuel stack candidate
    else if !includePendingBlockingLeaf && curr.hasValidatorUpdate then
      getTipLoop s includePendingBlockingLeaf fuel stack candidate
    else
      match curr.children.mapM (findBlock s) with
      | none => none
      | some children =>
        getTipLoop s includePendingBlockingLeaf fuel (children.reverse ++ stack)
          (if decide (candidate.block.height < curr.block.height) then curr else candidate)

/-- GetTip: DFS from the highest CC block for the valid descendant of
greatest height, first visit winning ties. -/
def getTip (s : EngineState) (includePendingBlockingLeaf : Bool) : Option ExtendedBlock :=
  getTipLoop s includePendingBlockingLeaf (tipFuel s) [s.highestCC] s.highestCC

/-- GetTipToVote: the tip selection used when voting (pending blocking
leaves included). -/
def getTipToVote (s : EngineState) : Option ExtendedBlock :=
  getTip s true

/-- GetTipToExtend: the tip selection used when proposing (subtrees rooted
at blocks with validator updates excluded). -/
def getTipToExtend (s : EngineState) : Option ExtendedBlock :=
  getTip s false

/-- Accessor: the HCC of an extended block. -/
def ExtendedBlock.hcc (b : ExtendedBlock) : HCCT := b.block.hcc

/-- shouldRepeatVote: the repeat decision of vote(), in source order: the
last vote exists and its height is at least the tip height, or the last
vote exists and the HCC of the tip differs from the local highest CC
block. -/
def shouldRepeatVote (s : EngineState) (tip : ExtendedBlock) : Bool :=
  if s.lastVote.height != 0 && decide (tip.block.height ≤ s.lastVote.height) then true
  else if s.lastVote.height != 0 && tip.hcc.blockHash != s.highestCC.block.hash then true
  else false

/-- vote(): select the tip, return when this replica is not a validator
there, repeat the last vote (re-signed at the current epoch) when
shouldRepeatVote holds, otherwise cast and record a fresh vote on the
tip; in both cases broadcast the vote and feed it back through
handleVote. A missing previously-voted block is a panic, modelled by the
crashed flag. -/
def vote (env : Env) (s : EngineState) : EngineState :=
  match getTipToVote s with
  | none => { s with crashed := true }
  | some tip =>
    if shouldVote env tip.block.hash then
      if shouldRepeatVote s tip then
        match findBlock s s.lastVote.block with
        | none => { s with crashed := true }
        | some b =>
          let v := createVote env s b.block
          (handleVote env (broadcastVote s v) v).1
      else
        let v := createVote env s tip.block
        let s1 := { s with lastVote := v }
        (handleVote env (broadcastVote s1 v) v).1
    else s

/-- handleBlock: locate the parent (fatal when missing), validate the
block (marking it Invalid on failure), replay the HCC votes through the
vote engine, reset the ledger to the parent state and apply the block
transactions, record a validator update when the ledger reports one, mark
the block Valid, run the CC check, and vote unless the block epoch is
below the current epoch minus one, the subtraction being computed in
uint64. -/
def handleBlock (env : Env) (s : EngineState) (block : Block) : EngineState :=
  match findBlock s block.parent with
  | none => { s with crashed := true }
  | some parent =>
    if !validateBlock env s block parent then
      setStatus s block.hash Status.invalid
    else
      let s1 := block.hcc.votes.foldl (fun st v => (handleVoteInBlock env st v).1) s
      if !env.resetStateOk parent.block.height parent.block.stateHash then s1
      else
        match env.applyBlockTxs block with
        | none => s1
        | some hvu =>
          let s2 := if hvu then markBlockHasValidatorUpdate s1 block.hash else s1
          let s3 := setStatus s2 block.hash Status.valid
          let s4 := checkCC env s3 block.hash
          if decide (block.epoch < u64pred s4.epoch) then s4
          else vote env s4

/-- The messages drained from the inbound channel: standalone votes and
blocks. -/
inductive Msg where
  | vote (v : VoteT)
  | block (b : Block)

/-- processMessage: dispatch a vote to handleStandaloneVote (propagating
its endEpoch signal) and a block to handleBlock (always returning
endEpoch false). -/
def processMessage (env : Env) (s : EngineState) : Msg → EngineState × Bool
  | Msg.vote v => handleStandaloneVote env s v
  | Msg.block b => (handleBlock env s b, false)

/-- Modelled from the spec: VoteSet.UniqueVoter keeps at most one vote per
voter, later votes replacing earlier ones (core package is not part of
the provided source). -/
def uniqueVoter (l : List VoteT) : List VoteT :=
  l.foldl
    (fun acc v =>
      if acc.any (fun w => w.id == v.id) then
        acc.map (fun w => if w.id == v.id then v else w)
      else acc ++ [v])
    []

/-- Modelled from the spec: VoteSet.UniqueVoterAndBlock keeps at most one
vote per (voter, block) pair (core package is not part of the provided
source). -/
def uniqueVoterAndBlock (l : List VoteT) : List VoteT :=
  l.foldl
    (fun acc v =>
      if acc.any (fun w => w.id == v.id && w.block == v.block) then
        acc.map (fun w => if w.id == v.id && w.block == v.block then v else w)
      else acc ++ [v])
    []

/-- Modelled from the spec: chain.AddBlock stores the block as Pending and
links it as a child of its parent, failing on a duplicate (blockchain
package is not part of the provided source). -/
def addBlock (s : EngineState) (b : Block) : Option EngineState :=
  if (findBlock s b.hash).isSome then none
  else
    let linked := updateBlock s.chainBlocks b.parent
      (fun p => { p with children := p.children ++ [b.hash] })
    let entry : ExtendedBlock :=
      { block := b, children := [], status := Status.pending, hasValidatorUpdate := false }
    some { s with chainBlocks := linked ++ [(b.hash, entry)] }

/-- broadcastProposal: encode the proposal and send it on the proposal
channel; recorded as a trace entry. -/
def broadcastProposal (s : EngineState) (p : Proposal) : EngineState :=
  { s with proposalBroadcasts := s.proposalBroadcasts ++ [p] }

/-- createProposal: select the tip to extend, reset the ledger to the tip
state (fatal on failure), build, fill and sign a block extending the tip
with the local highest CC as HCC, collect supporting votes, add the block
to the chain store and feed it through handleBlock. Returns the updated
state and the proposal when one was produced. -/
def createProposal (env : Env) (s : EngineState) : EngineState × Option Proposal :=
  match getTipToExtend s with
  | none => ({ s with crashed := true }, none)
  | some tip =>
    if !env.resetStateOk tip.block.height tip.block.stateHash then
      ({ s with crashed := true }, none)
    else
      match env.proposeBlockTxs tip.block.stateHash with
      | none => (s, none)
      | some (newRoot, txs) =>
        let b0 : Block :=
          { chainID := env.chainID, parent := tip.block.hash,
            height := tip.block.height + 1, epoch := s.epoch,
            proposer := env.selfAddr, timestamp := env.now,
            hcc := { blockHash := s.highestCC.block.hash,
                     votes := uniqueVoter (findVotesByHash s s.highestCC.block.hash) },
            txs := txs, stateHash := newRoot, sig := 0, hash := 0 }
        let b1 := { b0 with sig := env.signBlock b0 }
        let b2 := { b1 with hash := env.mkHash b1 }
        let proposal : Proposal :=
          { block := b2, proposerID := env.selfAddr,
            votes := uniqueVoterAndBlock
                (findVotesByHash s s.highestCC.block.hash ++ s.epochVotes) ++
              [createVote env s b2] }
        match addBlock s b2 with
        | none => (s, none)
        | some s1 => (handleBlock env s1 b2, some proposal)

/-- The fresh-proposal path of propose(): create a proposal, record it as
the last proposal, and broadcast it; a failed creation broadcasts
nothing. -/
def proposeNew (env : Env) (s : EngineState) : EngineState :=
  match createProposal env s with
  | (s1, none) => s1
  | (s1, some p) => broadcastProposal { s1 with lastProposal := some p } p

/-- propose(): rebroadcast the last proposal when it exists and has the
current epoch, otherwise make a new one. -/
def propose (env : Env) (s : EngineState) : EngineState :=
  match s.lastProposal with
  | some lp =>
    if decide (s.epoch = lp.block.epoch) then broadcastProposal s lp
    else proposeNew env s
  | none => proposeNew env s

/-! Concrete scenario data used to evaluate the engine on explicit inputs. -/

/-- The zero vote: the value of GetLastVote before any vote was cast
(height 0 signals that no last vote exists). -/
def vote0 : VoteT := { block := 0, height := 0, id := 0, epoch := 0, sig := 0 }

/-- A genesis block at height 0, epoch 0, with hash 1. -/
def genesisBlock : Block :=
  { chainID := 0, parent := 0, height := 0, epoch := 0, proposer := 0, timestamp := 0,
    hcc := { blockHash := 0, votes := [] }, txs := [], stateHash := 0, sig := 0, hash := 1 }

/-- The genesis block as stored: valid, no children, no validator update. -/
def genesisExt : ExtendedBlock :=
  { block := genesisBlock, children := [], status := Status.valid, hasValidatorUpdate := false }

/-- A fresh engine state at epoch 0 whose chain store holds only genesis. -/
def baseState : EngineState :=
  { stopped := false, crashed := false, epoch := 0, lastVote := vote0, lastProposal := none,
    highestCC := genesisExt, lastFinalized := genesisExt, epochVotes := [],
    chainBlocks := [(1, genesisExt)], chainVotes := [], ledgerOps := [], commitOps := [],
    finalizeMarkOps := [], txIndexOps := [], broadcasts := [], proposalBroadcasts := [],
    finalizedEmitted := [] }

/-- A permissive environment: this replica (address 7) is always a
validator and the next proposer, structural checks pass, the ledger
succeeds, and no vote set ever reaches a majority. -/
def baseEnv : Env :=
  { selfAddr := 7, chainID := 0, now := 0, queueCap := 4,
    getValidatorSet := fun _ => 0, getNextValidatorSet := fun _ => 0,
    getNextProposer := fun _ _ => 7, inValidatorSet := fun _ _ => true,
    hasMajority := fun _ _ => false, hccIsValid := fun _ _ => true,
    hccIsProven := fun _ _ => true, blockValidateOk := fun _ => true,
    voteValidateOk := fun _ => true, isDescendant := fun _ _ => true,
    resetStateOk := fun _ _ => true, applyBlockTxs := fun _ => some false,
    proposeBlockTxs := fun _ => some (0, []), signVote := fun _ _ _ => 0,
    signBlock := fun _ => 0, mkHash := fun _ => 99 }

/-- The genesis parent with a validator update, for the first direct
confirmation rule. -/
def parentHVU : ExtendedBlock := { genesisExt with hasValidatorUpdate := true }

/-- A child of genesis whose HCC names a hash different from its parent. -/
def blkBadHCC : Block :=
  { genesisBlock with
    parent := 1, height := 1, epoch := 1, proposer := 7,
    hcc := { blockHash := 5, votes := [] }, hash := 2 }

/-- A grandparent (hash 1) with a validator update. -/
def gpHVU : ExtendedBlock :=
  { block := genesisBlock, children := [2], status := Status.valid, hasValidatorUpdate := true }

/-- A middle block (hash 2, height 1) between the validator-update block
and the block under validation. -/
def parMid : ExtendedBlock :=
  { block := { genesisBlock with parent := 1, height := 1, epoch := 1, hash := 2 },
    children := [3], status := Status.valid, hasValidatorUpdate := false }

/-- A block at height 2 whose HCC names its parent (hash 2), the second
direct confirmation after the validator update at the grandparent. -/
def blkTwo : Block :=
  { genesisBlock with
    parent := 2, height := 2, epoch := 2, proposer := 7,
    hcc := { blockHash := 2, votes := [] }, hash := 3 }

/-- State whose chain store holds the validator-update grandparent and
the middle block. -/
def stGP : EngineState := { baseState with chainBlocks := [(1, gpHVU), (2, parMid)] }

/-- Environment where the validator set at hash 3 is set 0 and at every
other hash set 1, and only set 0 certifies an HCC: it distinguishes the
validator set at the block hash from the one at the HCC hash. -/
def envC2 : Env :=
  { baseEnv with getValidatorSet := fun h => if h == 3 then 0 else 1,
                 hccIsValid := fun _ vs => vs == 0 }

/-- A child of genesis with hash 3 whose HCC names genesis. -/
def blkC2 : Block :=
  { genesisBlock with
    parent := 1, height := 1, epoch := 1, proposer := 7,
    hcc := { blockHash := 1, votes := [] }, hash := 3 }

/-- Environment in which any nonempty vote set is a majority. -/
def envMaj : Env := { baseEnv with hasMajority := fun _ votes => !votes.isEmpty }

/-- State at epoch 5 holding one indexed epoch vote at epoch 4. -/
def stC4 : EngineState :=
  { baseState with epoch := 5,
                   epochVotes := [{ block := 1, height := 0, id := 3, epoch := 4, sig := 0 }] }

/-- A stale vote at epoch 3, below the engine epoch 5. -/
def vC4 : VoteT := { block := 1, height := 0, id := 9, epoch := 3, sig := 0 }

/-- State at epoch 2 with no indexed epoch votes. -/
def stC4b : EngineState := { baseState with epoch := 2 }

/-- A vote at epoch 6, far ahead of the engine epoch 2. -/
def vC4b : VoteT := { block := 1, height := 0, id := 9, epoch := 6, sig := 0 }

/-- A valid block at height 1, epoch 1, extending genesis with an empty
HCC vote set. -/
def blkC5 : Block :=
  { genesisBlock with
    parent := 1, height := 1, epoch := 1, proposer := 7,
    hcc := { blockHash := 1, votes := [] }, hash := 2 }

/-- The stored pending form of blkC5. -/
def extPendC5 : ExtendedBlock :=
  { block := blkC5, children := [], status := Status.pending, hasValidatorUpdate := false }

/-- Genesis linked to its child at hash 2. -/
def genesisExtChild : ExtendedBlock := { genesisExt with children := [2] }

/-- Engine state at epoch 0 whose store holds genesis and the pending
block at hash 2. -/
def stC5 : EngineState :=
  { baseState with highestCC := genesisExtChild, lastFinalized := genesisExtChild,
                   chainBlocks := [(1, genesisExtChild), (2, extPendC5)] }

/-- A vote at epoch 0 on genesis, carried inside the HCC of a block. -/
def vJ : VoteT := { block := 1, height := 0, id := 3, epoch := 0, sig := 0 }

/-- A block at epoch 1 carrying an epoch-advancing vote in its HCC. -/
def blkJ : Block :=
  { genesisBlock with
    parent := 1, height := 1, epoch := 1, proposer := 7,
    hcc := { blockHash := 1, votes := [vJ] }, hash := 2 }

/-- The stored pending form of blkJ. -/
def extPendJ : ExtendedBlock :=
  { block := blkJ, children := [], status := Status.pending, hasValidatorUpdate := false }

/-- Engine state at epoch 0 whose store holds genesis and the pending
blkJ; together with envMaj, replaying the HCC vote advances the epoch. -/
def stJ : EngineState :=
  { baseState with highestCC := genesisExtChild, lastFinalized := genesisExtChild,
                   chainBlocks := [(1, genesisExtChild), (2, extPendJ)] }

/-- A state with a recorded last vote at height 5, forcing a repeat. -/
def stRepeat : EngineState :=
  { baseState with lastVote := { block := 1, height := 5, id := 7, epoch := 0, sig := 0 } }

/-- A stopped engine state. -/
def stStopped : EngineState := { baseState with stopped := true }

/-- A stored block at height 2 serving as a high highest-CC block. -/
def extHigh : ExtendedBlock :=
  { block := { genesisBlock with parent := 1, height := 2, epoch := 2, hash := 4 },
    children := [], status := Status.valid, hasValidatorUpdate := false }

/-- A state whose highest CC block (height 2) is above genesis. -/
def stLow : EngineState := { baseState with highestCC := extHigh }

/-! Helper lemmas about which parts of the state each operation touches. -/

@[simp]
theorem addVote_epoch (s : EngineState) (v : VoteT) : (addVote s v).epoch = s.epoch := rfl

@[simp]
theorem addVote_lastFinalized (s : EngineState) (v : VoteT) :
    (addVote s v).lastFinalized = s.lastFinalized := rfl

@[simp]
theorem addVote_epochVotes (s : EngineState) (v : VoteT) :
    (addVote s v).epochVotes = s.epochVotes ++ [v] := rfl

@[simp]
theorem broadcastVote_epoch (s : EngineState) (v : VoteT) : (broadcastVote s v).epoch = s.epoch := rfl

@[simp]
theorem broadcastVote_lastVote (s : EngineState) (v : VoteT) :
    (broadcastVote s v).lastVote = s.lastVote := rfl

@[simp]
theorem setStatus_epoch (s : EngineState) (h : Hash) (st : Status) :
    (setStatus s h st).epoch = s.epoch := rfl

@[simp]
theorem markBlockHasValidatorUpdate_epoch (s : EngineState) (h : Hash) :
    (markBlockHasValidatorUpdate s h).epoch = s.epoch := rfl

@[simp]
theorem commitBlock_epoch (s : EngineState) (h : Hash) : (commitBlock s h).epoch = s.epoch := rfl

@[simp]
theorem finalizePreviousBlocks_epoch (s : EngineState) (h : Hash) :
    (finalizePreviousBlocks s h).epoch = s.epoch := rfl

@[simp]
theorem broadcastProposal_epoch (s : EngineState) (p : Proposal) :
    (broadcastProposal s p).epoch = s.epoch := rfl

theorem finalizeBlock_epoch (env : Env) (s : EngineState) (b : ExtendedBlock) :
    (finalizeBlock env s b).epoch = s.epoch := by
  unfold finalizeBlock
  split_ifs with h1 h2
  · rfl
  · rfl
  · dsimp only
    split_ifs <;> rfl

theorem processCCBlock_epoch (env : Env) (s : EngineState) (b : ExtendedBlock) :
    (processCCBlock env s b).epoch = s.epoch := by
  unfold processCCBlock
  split_ifs with h1
  · rfl
  · cases hp : findBlock (commitBlock { s with highestCC := b } b.block.hash) b.block.parent with
    | none => simp [hp]
    | some parent =>
      simp only [hp]
      split_ifs with h2
      · rw [finalizeBlock_epoch]; rfl
      · rfl

theorem checkCC_epoch (env : Env) (s : EngineState) (h : Hash) :
    (checkCC env s h).epoch = s.epoch := by
  unfold checkCC
  by_cases h1 : (h == emptyHash) = true
  · rw [if_pos h1]
  · rw [if_neg h1]
    cases hp : findBlock s h with
    | none => rfl
    | some block =>
      dsimp only
      by_cases h2 : (decide (block.block.height < s.highestCC.block.height)) = true
      · rw [if_pos h2]
      · rw [if_neg h2]
        by_cases h3 : env.hasMajority (env.getValidatorSet h) (findVotesByHash s h) = true
        · rw [if_pos h3]
          exact processCCBlock_epoch env s block
        · rw [if_neg h3]

theorem handleVote_epoch_le (env : Env) (s : EngineState) (v : VoteT) :
    s.epoch ≤ ((handleVote env s v).1).epoch := by
  unfold handleVote
  dsimp only
  split_ifs with h1 h2 h3 h4 <;>
    first
    | exact le_refl _
    | (have h5 : s.epoch ≤ v.epoch := by simpa [addVote] using h2
       show s.epoch ≤ v.epoch + 1
       omega)

theorem handleVote_epoch_char (env : Env) (s : EngineState) (v : VoteT) :
    ((handleVote env s v).1).epoch = s.epoch ∨
      (((handleVote env s v).1).epoch = v.epoch + 1 ∧ s.epoch ≤ v.epoch) := by
  unfold handleVote
  dsimp only
  split_ifs with h1 h2 h3 h4 <;>
    first
    | exact Or.inl rfl
    | exact Or.inr ⟨rfl, by simpa [addVote] using h2⟩

theorem handleVote_lastVote (env : Env) (s : EngineState) (v : VoteT) :
    ((handleVote env s v).1).lastVote = s.lastVote := by
  unfold handleVote
  dsimp only
  split_ifs <;> rfl

theorem foldVotes_epoch_le (env : Env) (l : List VoteT) :
    ∀ s : EngineState, s.epoch ≤ (l.foldl (fun st v => (handleVoteInBlock env st v).1) s).epoch := by
  induction l with
  | nil => intro s; simp
  | cons v t ih =>
    intro s
    simp only [List.foldl_cons]
    exact le_trans (handleVote_epoch_le env s v) (ih _)

theorem vote_epoch_le (env : Env) (s : EngineState) : s.epoch ≤ (vote env s).epoch := by
  unfold vote
  cases ht : getTipToVote s with
  | none => simp
  | some tip =>
    simp only []
    split_ifs with h1 h2
    · cases hb : findBlock s s.lastVote.block with
      | none => simp
      | some b =>
        simp only [hb]
        exact le_trans (le_of_eq (broadcastVote_epoch s _).symm)
          (handleVote_epoch_le env (broadcastVote s _) _)
    · exact le_trans (le_of_eq rfl)
        (handleVote_epoch_le env (broadcastVote { s with lastVote := createVote env s tip.block } _) _)
    · exact le_refl _

theorem handleBlock_epoch_le (env : Env) (s : EngineState) (block : Block) :
    s.epoch ≤ (handleBlock env s block).epoch := by
  unfold handleBlock
  cases hp : findBlock s block.parent with
  | none => simp
  | some parent =>
    simp only []
    split_ifs with h1 h2
    · simp
    · exact foldVotes_epoch_le env block.hcc.votes s
    · cases ha : env.applyBlockTxs block with
      | none => simp only [ha]; exact foldVotes_epoch_le env block.hcc.votes s
      | some hvu =>
        simp only [ha]
        have hbase := foldVotes_epoch_le env block.hcc.votes s
        set s1 := block.hcc.votes.foldl (fun st v => (handleVoteInBlock env st v).1) s with hs1
        have hX : ∀ st : EngineState, st.epoch = s1.epoch →
            s.epoch ≤ (checkCC env (setStatus st block.hash Status.valid) block.hash).epoch := by
          intro st hst
          rw [checkCC_epoch, setStatus_epoch, hst]
          exact hbase
        have hV : ∀ st : EngineState, st.epoch = s1.epoch →
            s.epoch ≤ (vote env (checkCC env (setStatus st block.hash Status.valid) block.hash)).epoch := by
          intro st hst
          exact le_trans (hX st hst) (vote_epoch_le env _)
        split_ifs with h3 h4 <;>
          first
          | exact hX _ (markBlockHasValidatorUpdate_epoch s1 block.hash)
          | exact hX _ rfl
          | exact hV _ (markBlockHasValidatorUpdate_epoch s1 block.hash)

theorem handleStandaloneVote_epoch_le (env : Env) (s : EngineState) (v : VoteT) :
    s.epoch ≤ ((handleStandaloneVote env s v).1).epoch := by
  unfold handleStandaloneVote
  simp only []
  rw [checkCC_epoch]
  exact handleVote_epoch_le env s v

theorem addBlock_epoch (s : EngineState) (b : Block) (s1 : EngineState)
    (h : addBlock s b = some s1) : s1.epoch = s.epoch := by
  unfold addBlock at h
  split_ifs at h
  simp only [Option.some.injEq] at h
  rw [← h]

theorem createProposal_epoch_le (env : Env) (s : EngineState) :
    s.epoch ≤ (createProposal env s).1.epoch := by
  unfold createProposal
  cases ht : getTipToExtend s with
  | none => simp
  | some tip =>
    simp only []
    split_ifs with h1
    · exact le_refl _
    · cases hx : env.proposeBlockTxs tip.block.stateHash with
      | none => simp
      | some pr =>
        cases pr with
        | mk newRoot txs =>
          simp only []
          cases hb : addBlock s _ with
          | none => simp
          | some s1 =>
            simp only []
            have he := addBlock_epoch s _ s1 hb
            rw [← he]
            exact handleBlock_epoch_le env s1 _

theorem proposeNew_epoch_le (env : Env) (s : EngineState) :
    s.epoch ≤ (proposeNew env s).epoch := by
  unfold proposeNew
  have h := createProposal_epoch_le env s
  cases hc : createProposal env s with
  | mk s1 p =>
    rw [hc] at h
    cases p with
    | none => exact h
    | some pr => simpa using h

theorem propose_epoch_le (env : Env) (s : EngineState) :
    s.epoch ≤ (propose env s).epoch := by
  unfold propose
  cases hl : s.lastProposal with
  | none => exact proposeNew_epoch_le env s
  | some lp =>
    simp only []
    split_ifs with h1
    · simp
    · exact proposeNew_epoch_le env s

theorem validateBlock_eq_true_iff (env : Env) (s : EngineState) (block : Block)
    (parent : ExtendedBlock) :
    validateBlock env s block parent = true ↔
      (parent.block.height + 1 = block.height ∧
       parent.block.epoch < block.epoch ∧
       parent.status.isValid = true ∧
       env.isDescendant block.hcc.blockHash block.hash = true ∧
       env.hccIsValid block.hcc (env.getValidatorSet block.hash) = true ∧
       (parent.hasValidatorUpdate = true → block.hcc.blockHash = block.parent) ∧
       validateGrandParent env s block parent = true ∧
       env.blockValidateOk block = true ∧
       shouldProposeByID env s block.epoch block.proposer = true) := by
  unfold validateBlock
  simp only [Bool.and_eq_true, Bool.or_eq_true, Bool.not_eq_true', beq_iff_eq,
    decide_eq_true_eq, and_assoc]
  constructor
  · rintro ⟨a, b, c, d, e, f, g, h, i⟩
    refine ⟨a, b, c, d, e, ?_, g, h, i⟩
    intro hvu
    rcases f with hf | hf
    · rw [hvu] at hf; cases hf
    · exact hf
  · rintro ⟨a, b, c, d, e, f, g, h, i⟩
    refine ⟨a, b, c, d, e, ?_, g, h, i⟩
    by_cases hvu : parent.hasValidatorUpdate = true
    · exact Or.inr (f hvu)
    · exact Or.inl (by simpa using hvu)

theorem validateGrandParent_spec (env : Env) (s : EngineState) (block : Block)
    (parent : ExtendedBlock) (gp : ExtendedBlock)
    (hpp : parent.block.parent ≠ emptyHash)
    (hfind : findBlock s parent.block.parent = some gp)
    (hgp : gp.hasValidatorUpdate = true)
    (hg : validateGrandParent env s block parent = true) :
    block.hcc.blockHash = block.parent ∧
      env.hccIsProven block.hcc (env.getValidatorSet block.hash) = true := by
  unfold validateGrandParent at hg
  rw [if_neg (by simpa [beq_iff_eq] using hpp), hfind] at hg
  simp only [Bool.or_eq_true, Bool.not_eq_true', Bool.and_eq_true, beq_iff_eq] at hg
  rcases hg with hg | hg
  · rw [hgp] at hg; cases hg
  · exact hg

/-- C1: validateBlock enforces the two-direct-confirmations rule for
validator changes: when the parent has a validator update, the HCC of the
block must name its parent; when the grandparent exists and has a
validator update, validation succeeds only when the HCC names the parent
and the HCC vote set is proven. -/
theorem validateBlock_two_direct_confirmations (env : Env) (s : EngineState)
    (block : Block) (parent : ExtendedBlock) :
    (parent.hasValidatorUpdate = true → block.hcc.blockHash ≠ block.parent →
      validateBlock env s block parent = false) ∧
    (∀ gp, parent.block.parent ≠ emptyHash →
      findBlock s parent.block.parent = some gp →
      gp.hasValidatorUpdate = true →
      validateBlock env s block parent = true →
      block.hcc.blockHash = block.parent ∧
        env.hccIsProven block.hcc (env.getValidatorSet block.hash) = true) := by
  constructor
  · intro hvu hne
    cases hval : validateBlock env s block parent with
    | false => rfl
    | true =>
      rw [validateBlock_eq_true_iff] at hval
      exact absurd (hval.2.2.2.2.2.1 hvu) hne
  · intro gp hpp hfind hgp hval
    rw [validateBlock_eq_true_iff] at hval
    exact validateGrandParent_spec env s block parent gp hpp hfind hgp hval.2.2.2.2.2.2.1

/-- C1 witness: at a concrete parent with a validator update and a block
whose HCC does not name the parent, validation fails; at a concrete chain
whose grandparent has a validator update and whose block passes
validation, the HCC names the parent and is proven. -/
theorem validateBlock_two_direct_confirmations_witness :
    validateBlock baseEnv baseState blkBadHCC parentHVU = false ∧
    (blkTwo.hcc.blockHash = blkTwo.parent ∧
      baseEnv.hccIsProven blkTwo.hcc (baseEnv.getValidatorSet blkTwo.hash) = true) :=
  ⟨(validateBlock_two_direct_confirmations baseEnv baseState blkBadHCC parentHVU).1
      (by decide) (by decide),
   (validateBlock_two_direct_confirmations baseEnv stGP blkTwo parMid).2 gpHVU
      (by decide) (by decide) (by decide) (by decide)⟩

/-- C2 counterexample: a concrete block that passes validateBlock even
though its HCC vote set is not a majority under the validator set at the
HCC block hash, refuting the claim that the validator set at
b.HCC.block_hash is the one used. -/
theorem validateBlock_hcc_wrong_validator_set_cx :
    findBlock baseState blkC2.parent = some genesisExt ∧
    validateBlock envC2 baseState blkC2 genesisExt = true ∧
    envC2.hccIsValid blkC2.hcc (envC2.getValidatorSet blkC2.hcc.blockHash) = false := by
  decide

/-- C2 amended: the HCC vote set of a block accepted by validateBlock is
certified under the validator set obtained for the hash of the block
itself (GetValidatorSet(block.Hash())), not the one at the HCC block
hash. -/
theorem validateBlock_hcc_checked_at_block_hash (env : Env) (s : EngineState)
    (block : Block) (parent : ExtendedBlock)
    (h : validateBlock env s block parent = true) :
    env.hccIsValid block.hcc (env.getValidatorSet block.hash) = true := by
  rw [validateBlock_eq_true_iff] at h
  exact h.2.2.2.2.1

/-- C2 amended witness: the concrete accepted block of the counterexample
indeed has its HCC certified under the validator set at its own hash. -/
theorem validateBlock_hcc_checked_at_block_hash_witness :
    envC2.hccIsValid blkC2.hcc (envC2.getValidatorSet blkC2.hash) = true :=
  validateBlock_hcc_checked_at_block_hash envC2 baseState blkC2 genesisExt (by decide)

theorem shouldRepeatVote_eq (s : EngineState) (tip : ExtendedBlock) :
    shouldRepeatVote s tip =
      ((s.lastVote.height != 0) &&
        (decide (tip.block.height ≤ s.lastVote.height) ||
          (tip.hcc.blockHash != s.highestCC.block.hash))) := by
  unfold shouldRepeatVote
  cases h1 : (s.lastVote.height != 0) <;>
    cases h2 : decide (tip.block.height ≤ s.lastVote.height) <;>
      cases h3 : (tip.hcc.blockHash != s.highestCC.block.hash) <;>
        simp [h1, h2, h3]

/-- C3 counterexample: at the genesis state with no recorded last vote
(height 0) and a tip of height 0, the claimed height condition
lastVote.height ≥ tip.height holds, yet the engine does not repeat but
casts and records a fresh vote, refuting the claim that the height
comparison applies without further condition. -/
theorem vote_no_repeat_without_prior_vote_cx :
    getTipToVote baseState = some genesisExt ∧
    genesisExt.block.height ≤ baseState.lastVote.height ∧
    shouldRepeatVote baseState genesisExt = false ∧
    (vote baseEnv baseState).lastVote ≠ baseState.lastVote := by
  decide

/-- C3 amended: the engine repeats its last vote if and only if a last
vote exists (height nonzero) and either its height is at least the tip
height or the HCC of the tip differs from the local highest CC block;
otherwise, when it may vote at all, it casts a fresh vote on the tip and
records it as the last vote. -/
theorem vote_repeat_characterization (env : Env) (s : EngineState) (tip : ExtendedBlock) :
    (shouldRepeatVote s tip = true ↔
      (s.lastVote.height ≠ 0 ∧
        (tip.block.height ≤ s.lastVote.height ∨
          tip.hcc.blockHash ≠ s.highestCC.block.hash))) ∧
    (getTipToVote s = some tip → shouldVote env tip.block.hash = true →
      shouldRepeatVote s tip = false →
      (vote env s).lastVote = createVote env s tip.block) := by
  constructor
  · rw [shouldRepeatVote_eq]
    simp [Bool.and_eq_true, Bool.or_eq_true, bne_iff_ne, decide_eq_true_eq]
  · intro ht hsv hrep
    unfold vote
    rw [ht]
    dsimp only
    rw [if_pos hsv, if_neg (by simp [hrep])]
    rw [handleVote_lastVote, broadcastVote_lastVote]

/-- C3 amended witness: at the concrete genesis state the engine casts the
fresh vote on the tip and records it. -/
theorem vote_repeat_characterization_witness :
    (vote baseEnv baseState).lastVote = createVote baseEnv baseState genesisExt.block :=
  (vote_repeat_characterization baseEnv baseState genesisExt).2
    (by decide) (by decide) (by decide)

/-- C8: whenever vote() decides to repeat (shouldRepeatVote holds at the
tip returned by GetTipToVote), the persisted last vote is left unchanged:
the re-signed vote is broadcast and processed, but SetLastVote is not
called. -/
theorem vote_repeat_preserves_lastVote (env : Env) (s : EngineState) (tip : ExtendedBlock)
    (h1 : getTipToVote s = some tip)
    (h2 : shouldVote env tip.block.hash = true)
    (h3 : shouldRepeatVote s tip = true) :
    (vote env s).lastVote = s.lastVote := by
  unfold vote
  rw [h1]
  dsimp only
  rw [if_pos h2, if_pos h3]
  cases hb : findBlock s s.lastVote.block with
  | none => rfl
  | some b =>
    dsimp only
    rw [handleVote_lastVote, broadcastVote_lastVote]

/-- C8 witness: at a concrete state with a recorded last vote of height 5
and a genesis tip of height 0, the repeated vote leaves the last vote
unchanged. -/
theorem vote_repeat_preserves_lastVote_witness :
    (vote baseEnv stRepeat).lastVote = stRepeat.lastVote :=
  vote_repeat_preserves_lastVote baseEnv stRepeat genesisExt
    (by decide) (by decide) (by decide)

/-- C4 counterexample: a concrete vote at epoch 3 arriving while the
engine is at epoch 5, in an environment where any nonempty vote set is a
majority: the collected votes with epoch at least 3 do form a majority,
yet handleVote returns endEpoch = false and leaves the epoch at 5,
refuting the claim that the epoch-advance check is run for every vote. -/
theorem handleVote_stale_vote_no_epoch_advance_cx :
    (handleVote envMaj stC4 vC4).2 = false ∧
    (handleVote envMaj stC4 vC4).1.epoch = 5 ∧
    envMaj.hasMajority (envMaj.getNextValidatorSet stC4.lastFinalized.block.hash)
        ((addVote stC4 vC4).epochVotes.filter (fun w => decide (vC4.epoch ≤ w.epoch))) = true := by
  decide

/-- C4 amended: the epoch-advance check runs only for votes whose epoch is
at least the engine epoch. For such a valid vote, endEpoch holds exactly
when the next validator set (derived from the last finalized block) has a
majority among the indexed votes with epoch at least v.epoch; in that
case the epoch becomes v.epoch + 1 and the collected votes are
rebroadcast when the jump skips an epoch. A vote below the engine epoch
never ends the epoch nor changes it. -/
theorem handleVote_epoch_advance_characterization (env : Env) (s : EngineState) (v : VoteT) :
    (v.epoch < s.epoch →
      (handleVote env s v).2 = false ∧ (handleVote env s v).1.epoch = s.epoch) ∧
    (env.voteValidateOk v = true → s.epoch ≤ v.epoch →
      ((handleVote env s v).2 = true ↔
        env.hasMajority (env.getNextValidatorSet s.lastFinalized.block.hash)
          ((addVote s v).epochVotes.filter (fun w => decide (v.epoch ≤ w.epoch))) = true) ∧
      ((handleVote env s v).2 = true → (handleVote env s v).1.epoch = v.epoch + 1) ∧
      ((handleVote env s v).2 = true → s.epoch + 1 < v.epoch + 1 →
        (handleVote env s v).1.broadcasts =
          s.broadcasts ++ (addVote s v).epochVotes.filter (fun w => decide (v.epoch ≤ w.epoch)))) := by
  constructor
  · intro hlt
    unfold handleVote
    dsimp only
    by_cases h1 : (!env.voteValidateOk v) = true
    · rw [if_pos h1]
      exact ⟨rfl, rfl⟩
    · rw [if_neg h1, if_neg (by simp [addVote]; omega)]
      exact ⟨rfl, rfl⟩
  · intro hok hle
    unfold handleVote
    dsimp only
    rw [if_neg (by simp [hok]), if_pos (by simp [addVote, hle])]
    by_cases h3 : env.hasMajority (env.getNextValidatorSet (addVote s v).lastFinalized.block.hash)
        ((addVote s v).epochVotes.filter (fun w => decide (v.epoch ≤ w.epoch))) = true
    · rw [if_pos h3]
      refine ⟨?_, ?_, ?_⟩
      · simpa [addVote] using h3
      · intro _; rfl
      · intro _ hjump
        rw [if_pos (by simp [addVote]; omega)]
        rfl
    · rw [if_neg h3]
      refine ⟨?_, ?_, ?_⟩
      · constructor
        · intro hfalse; cases hfalse
        · intro hmaj; exact absurd (by simpa [addVote] using hmaj) h3
      · intro hfalse; cases hfalse
      · intro hfalse; cases hfalse

/-- C4 amended witness: the stale-vote case returns endEpoch false with
the epoch unchanged, and a far-ahead vote at epoch 6 from engine epoch 2
advances the epoch to 7 and rebroadcasts the collected votes. -/
theorem handleVote_epoch_advance_characterization_witness :
    ((handleVote envMaj stC4 vC4).2 = false ∧ (handleVote envMaj stC4 vC4).1.epoch = stC4.epoch) ∧
    (handleVote envMaj stC4b vC4b).1.epoch = vC4b.epoch + 1 ∧
    (handleVote envMaj stC4b vC4b).1.broadcasts =
      stC4b.broadcasts ++ (addVote stC4b vC4b).epochVotes.filter (fun w => decide (vC4b.epoch ≤ w.epoch)) :=
  ⟨(handleVote_epoch_advance_characterization envMaj stC4 vC4).1 (by decide),
   ((handleVote_epoch_advance_characterization envMaj stC4b vC4b).2 (by decide) (by decide)).2.1
      (by decide),
   ((handleVote_epoch_advance_characterization envMaj stC4b vC4b).2 (by decide) (by decide)).2.2
      (by decide) (by decide)⟩

/-- C5: at engine epoch 0, handleBlock computes GetEpoch()-1 in uint64,
which wraps to 2^64-1, so the vote is skipped for a concrete valid block
at epoch 1 (no broadcast, last vote unchanged) even though exact integer
arithmetic would demand a vote (1 is at least 0 - 1); had the vote run at
the resulting state it would have broadcast, showing the skip is
observable. -/
theorem handleBlock_epoch_zero_vote_skip :
    u64pred 0 = 2 ^ 64 - 1 ∧
    (handleBlock baseEnv stC5 blkC5).broadcasts = stC5.broadcasts ∧
    (handleBlock baseEnv stC5 blkC5).lastVote = stC5.lastVote ∧
    (vote baseEnv (handleBlock baseEnv stC5 blkC5)).broadcasts ≠
      (handleBlock baseEnv stC5 blkC5).broadcasts ∧
    ((0 : Int) - 1 ≤ (blkC5.epoch : Int)) := by
  decide

theorem finalizeBlock_of_stopped (env : Env) (s : EngineState) (b : ExtendedBlock)
    (h : s.stopped = true) : finalizeBlock env s b = s := by
  unfold finalizeBlock
  rw [if_pos h]

theorem finalizeBlock_of_lastFinalized (env : Env) (s : EngineState) (b : ExtendedBlock)
    (h : b.block.hash = s.lastFinalized.block.hash) : finalizeBlock env s b = s := by
  unfold finalizeBlock
  by_cases h1 : s.stopped = true
  · rw [if_pos h1]
  · rw [if_neg h1, if_pos (beq_iff_eq.mpr h)]

theorem finalizeBlock_stopped_eq (env : Env) (s : EngineState) (b : ExtendedBlock) :
    (finalizeBlock env s b).stopped = s.stopped := by
  unfold finalizeBlock
  split_ifs with h1 h2
  · rfl
  · rfl
  · dsimp only
    split_ifs <;> rfl

theorem finalizeBlock_lastFinalized (env : Env) (s : EngineState) (b : ExtendedBlock)
    (h1 : ¬ s.stopped = true) (h2 : ¬ b.block.hash = s.lastFinalized.block.hash) :
    (finalizeBlock env s b).lastFinalized = b := by
  unfold finalizeBlock
  rw [if_neg h1, if_neg (by simpa [beq_iff_eq] using h2)]
  dsimp only
  split_ifs <;> rfl

/-- C6: finalizeBlock is a no-op (the entire engine state, including all
effect traces and the finalized-blocks channel, is unchanged) when the
engine is stopped or the block is the recorded last finalized block; and
a second consecutive call on the same block is always a no-op. -/
theorem finalizeBlock_noop_characterization (env : Env) (s : EngineState) (b : ExtendedBlock) :
    (s.stopped = true → finalizeBlock env s b = s) ∧
    (b.block.hash = s.lastFinalized.block.hash → finalizeBlock env s b = s) ∧
    finalizeBlock env (finalizeBlock env s b) b = finalizeBlock env s b := by
  refine ⟨finalizeBlock_of_stopped env s b, finalizeBlock_of_lastFinalized env s b, ?_⟩
  by_cases h1 : s.stopped = true
  · rw [finalizeBlock_of_stopped env s b h1, finalizeBlock_of_stopped env s b h1]
  · by_cases h2 : b.block.hash = s.lastFinalized.block.hash
    · rw [finalizeBlock_of_lastFinalized env s b h2, finalizeBlock_of_lastFinalized env s b h2]
    · apply finalizeBlock_of_lastFinalized
      rw [finalizeBlock_lastFinalized env s b h1 h2]

/-- C6 witness: a stopped state and a state whose last finalized block is
the argument are both left unchanged. -/
theorem finalizeBlock_noop_characterization_witness :
    finalizeBlock baseEnv stStopped genesisExt = stStopped ∧
    finalizeBlock baseEnv baseState genesisExt = baseState :=
  ⟨(finalizeBlock_noop_characterization baseEnv stStopped genesisExt).1 rfl,
   (finalizeBlock_noop_characterization baseEnv baseState genesisExt).2.1 rfl⟩

/-- C7: the engine epoch is non-decreasing across handleVote,
handleStandaloneVote, handleBlock, vote and propose; moreover handleVote
either leaves the epoch unchanged or sets it to v.epoch + 1 for the
processed vote v, which then satisfies v.epoch at least the prior
epoch. -/
theorem engine_epoch_monotone (env : Env) (s : EngineState) :
    (∀ v, s.epoch ≤ ((handleVote env s v).1).epoch ∧
      (((handleVote env s v).1).epoch = s.epoch ∨
        (((handleVote env s v).1).epoch = v.epoch + 1 ∧ s.epoch ≤ v.epoch))) ∧
    (∀ v, s.epoch ≤ ((handleStandaloneVote env s v).1).epoch) ∧
    (∀ b, s.epoch ≤ (handleBlock env s b).epoch) ∧
    s.epoch ≤ (vote env s).epoch ∧
    s.epoch ≤ (propose env s).epoch :=
  ⟨fun v => ⟨handleVote_epoch_le env s v, handleVote_epoch_char env s v⟩,
   fun v => handleStandaloneVote_epoch_le env s v,
   fun b => handleBlock_epoch_le env s b,
   vote_epoch_le env s,
   propose_epoch_le env s⟩

/-- C9: processMessage returns endEpoch = false for every block message;
and at a concrete state where replaying the votes embedded in the HCC of
the block advances the engine epoch, the signal is still discarded while
the epoch visibly advances. -/
theorem processMessage_block_discards_endEpoch :
    (∀ (env : Env) (s : EngineState) (b : Block),
      (processMessage env s (Msg.block b)).2 = false) ∧
    (stJ.epoch < (processMessage envMaj stJ (Msg.block blkJ)).1.epoch ∧
      (processMessage envMaj stJ (Msg.block blkJ)).2 = false) :=
  ⟨fun _ _ _ => rfl, by decide⟩

/-- C10: checkCC is a no-op, leaving the whole engine state unchanged,
when the hash is empty, when no block with that hash is in the chain
store, or when the found block is below the highest CC block. -/
theorem checkCC_noop_cases (env : Env) (s : EngineState) (h : Hash) :
    (h = emptyHash → checkCC env s h = s) ∧
    (findBlock s h = none → checkCC env s h = s) ∧
    (∀ b, findBlock s h = some b → b.block.height < s.highestCC.block.height →
      checkCC env s h = s) := by
  refine ⟨?_, ?_, ?_⟩
  · intro he
    subst he
    unfold checkCC
    rw [if_pos (by decide)]
  · intro hn
    unfold checkCC
    by_cases h1 : (h == emptyHash) = true
    · rw [if_pos h1]
    · rw [if_neg h1, hn]
  · intro b hb hlt
    unfold checkCC
    by_cases h1 : (h == emptyHash) = true
    · rw [if_pos h1]
    · rw [if_neg h1, hb]
      dsimp only
      rw [if_pos (by simpa using hlt)]

/-- C10 witness: the empty hash, an unknown hash, and a stored genesis
block below a highest CC block of height 2 all leave the state
unchanged. -/
theorem checkCC_noop_cases_witness :
    checkCC baseEnv baseState 0 = baseState ∧
    checkCC baseEnv baseState 9 = baseState ∧
    checkCC baseEnv stLow 1 = stLow :=
  ⟨(checkCC_noop_cases baseEnv baseState 0).1 rfl,
   (checkCC_noop_cases baseEnv baseState 9).2.1 (by decide),
   (checkCC_noop_cases baseEnv stLow 1).2.2 genesisExt (by decide) (by decide)⟩

end Consensus
